import Mathlib

set_option maxRecDepth 4000

/-!
Verification development for the RSS digest pipeline
(src/utils/rssHandler.js and its variants in src/unnamed/).

JavaScript strings are modelled as lists of characters (`Str`); machine
time is modelled as natural-number milliseconds; the upstream HTTP world
is modelled as an explicit environment record giving the results of the
three outbound calls (login body / subscription listing / per-stream
items).  Fallible runs return `Except Str Digest` together with the
updated cache state.
-/

/-- JavaScript strings, modelled as lists of UTF-16-ish characters. -/
abbrev Str := List Char

/-- Model of the JS whitespace class used by the regexes in
rssHandler.js (`\s`); covers the ASCII whitespace characters plus the
usual Unicode members that can occur in feed summaries. -/
def isWs (c : Char) : Bool :=
  c = ' ' || c = '\t' || c = '\n' || c = '\r' || c = '\x0b' || c = '\x0c' ||
  c = ' ' || c = '﻿'

/-- Model of `stripTags` from src/utils/rssHandler.js line 238:
`html.replace(/<[^>]*>?/gm, '')`.  The boolean flag records whether the
scanner is currently inside a `<`-initiated tag (greedy `[^>]*` followed
by an optional `>`): every `<` enters tag mode, tag mode ends right
after the next `>` (or never, if no `>` follows). -/
def stripTagsGo : Bool → Str → Str
  | _, [] => []
  | true, c :: cs => if c = '>' then stripTagsGo false cs else stripTagsGo true cs
  | false, c :: cs => if c = '<' then stripTagsGo true cs else c :: stripTagsGo false cs

/-- `stripTags` of src/utils/rssHandler.js: remove every maximal
substring that starts at a `<` and runs through the next `>` (or to the
end of the input when no `>` follows). -/
def stripTags (html : Str) : Str := stripTagsGo false html

/-- Model of `.replace(/\s+/g, ' ')` from `formatArticles`: every
maximal run of whitespace becomes a single space. -/
def collapseWs : Str → Str
  | [] => []
  | [c] => if isWs c then [' '] else [c]
  | c :: c2 :: cs =>
      if isWs c then
        (if isWs c2 then collapseWs (c2 :: cs) else ' ' :: collapseWs (c2 :: cs))
      else c :: collapseWs (c2 :: cs)

/-- Model of `String.prototype.trim`: drop leading and trailing
whitespace. -/
def trimStr (s : Str) : Str :=
  ((s.dropWhile isWs).reverse.dropWhile isWs).reverse

/-- Character of a single decimal digit (the low digit of `n`). -/
def digitChar (n : Nat) : Char := Char.ofNat (48 + n % 10)

/-- Two-digit zero-padded decimal rendering (faithful for `n < 100`). -/
def pad2 (n : Nat) : Str := [digitChar (n / 10), digitChar n]

/-- Three-digit zero-padded decimal rendering (faithful for `n < 1000`). -/
def pad3 (n : Nat) : Str := [digitChar (n / 100), digitChar (n / 10), digitChar n]

/-- Four-digit zero-padded decimal rendering (faithful for `n < 10000`). -/
def pad4 (n : Nat) : Str := [digitChar (n / 1000), digitChar (n / 100), digitChar (n / 10), digitChar n]

/-- Proleptic Gregorian leap-year test, as used by JS `Date`. -/
def isLeap (y : Nat) : Bool := (y % 4 == 0 && y % 100 != 0) || y % 400 == 0

/-- Days in year `y`. -/
def daysInYear (y : Nat) : Nat := if isLeap y then 366 else 365

/-- Month lengths of year `y`, January first. -/
def monthLengths (y : Nat) : List Nat :=
  [31, if isLeap y then 29 else 28, 31, 30, 31, 30, 31, 31, 30, 31, 30, 31]

/-- Locate the year containing day `d` (counted from Jan 1 of year `y`):
returns the year together with the remaining day-of-year offset.  The
fuel argument makes the recursion structural; fuel `d + 1` is always
sufficient since every step consumes at least 365 days. -/
def findYear : Nat → Nat → Nat → Nat × Nat
  | 0, y, d => (y, d)
  | fuel + 1, y, d =>
      if d < daysInYear y then (y, d) else findYear fuel (y + 1) (d - daysInYear y)

/-- Locate the month containing day-of-year offset `d` given the list of
month lengths; returns the (1-based, when started at 1) month and the
1-based day of month. -/
def findMonth : List Nat → Nat → Nat → Nat × Nat
  | [], m, d => (m, d + 1)
  | ml :: rest, m, d =>
      if d < ml then (m, d + 1) else findMonth rest (m + 1) (d - ml)

/-- Civil UTC date (year, month, day) of day number `z` counted from
1970-01-01. -/
def civilOfDays (z : Nat) : Nat × Nat × Nat :=
  ((findYear (z + 1) 1970 z).1,
   (findMonth (monthLengths (findYear (z + 1) 1970 z).1) 1 (findYear (z + 1) 1970 z).2).1,
   (findMonth (monthLengths (findYear (z + 1) 1970 z).1) 1 (findYear (z + 1) 1970 z).2).2)

/-- Total days in the `k` consecutive years starting at year `y`. -/
def sumYears (y : Nat) : Nat → Nat
  | 0 => 0
  | k + 1 => sumYears y k + daysInYear (y + k)

/-- Independent day-count formula: day number (from 1970-01-01) of the
civil date `(y, m, d)`, via year totals plus month-prefix sums. -/
def dayNumber (y m d : Nat) : Nat :=
  sumYears 1970 (y - 1970) + ((monthLengths y).take (m - 1)).sum + (d - 1)

/-- The `YYYY-MM-DD` section of the ISO rendering of `s` epoch
seconds. -/
def isoDatePart (s : Nat) : Str :=
  pad4 (civilOfDays (s / 86400)).1 ++ '-' :: pad2 (civilOfDays (s / 86400)).2.1 ++
    '-' :: pad2 (civilOfDays (s / 86400)).2.2

/-- Model of `Date.prototype.toISOString` applied to `ms` milliseconds
since the epoch; faithful to ECMA-262 for dates of years 1970..9999
(outside that range the real method switches to the expanded-year
format). -/
def toISOStringUTC (ms : Nat) : Str :=
  isoDatePart (ms / 1000) ++
    'T' :: pad2 (ms / 1000 % 86400 / 3600) ++ ':' :: pad2 (ms / 1000 % 3600 / 60) ++
    ':' :: pad2 (ms / 1000 % 60) ++ '.' :: pad3 (ms % 1000) ++ ['Z']

/-- Model of JS `String.prototype.replace` with a one-character string
pattern: replace only the first occurrence. -/
def replaceFirstChar (c r : Char) : Str → Str
  | [] => []
  | x :: xs => if x = c then r :: xs else x :: replaceFirstChar c r xs

/-- Modelled from the spec, for the refinement claim about the `time`
field: the publish epoch (seconds) converted to an absolute UTC-based
timestamp truncated to minute precision and rendered as
`YYYY-MM-DD HH:MM`. -/
def specTimeRender (epoch : Nat) : Str :=
  isoDatePart epoch ++ ' ' :: pad2 (epoch % 86400 / 3600) ++ ':' :: pad2 (epoch % 3600 / 60)

/-- Alphanumeric ASCII test. -/
def isAlphaNum (c : Char) : Bool :=
  ('A' ≤ c && c ≤ 'Z') || ('a' ≤ c && c ≤ 'z') || ('0' ≤ c && c ≤ '9')

/-- Characters left unescaped by JS `encodeURIComponent`
(`A-Z a-z 0-9 - _ . ! ~ * ' ( )`). -/
def uriUnescaped (c : Char) : Bool :=
  isAlphaNum c || c = '-' || c = '_' || c = '.' || c = '!' || c = '~' ||
  c = '*' || c = '\'' || c = '(' || c = ')'

/-- Uppercase hexadecimal digit (faithful for `n < 16`). -/
def hexDigit (n : Nat) : Char :=
  if n < 10 then digitChar n else Char.ofNat (55 + n)

/-- UTF-8 bytes of one character. -/
def utf8Bytes (c : Char) : List Nat :=
  let n := c.toNat
  if n < 128 then [n]
  else if n < 2048 then [192 + n / 64, 128 + n % 64]
  else if n < 65536 then [224 + n / 4096, 128 + n / 64 % 64, 128 + n % 64]
  else [240 + n / 262144, 128 + n / 4096 % 64, 128 + n / 64 % 64, 128 + n % 64]

/-- Percent-encoding of one byte, uppercase hex. -/
def pctByte (b : Nat) : Str := ['%', hexDigit (b / 16), hexDigit (b % 16)]

/-- Model of JS `encodeURIComponent`. -/
def encodeURIComponent (s : Str) : Str :=
  s.foldr (fun c acc =>
    (if uriUnescaped c then [c] else (utf8Bytes c).foldr (fun b a => pctByte b ++ a) []) ++ acc) []

/-- Model of `.replace(/X/g, rep)` for a single character `X`. -/
def replaceAllChar (c : Char) (r : Str) (s : Str) : Str :=
  s.foldr (fun x acc => (if x = c then r else [x]) ++ acc) []

/-- Model of `phpUrlEncode` from src/utils/rssHandler.js lines 192-199:
`encodeURIComponent` followed by global replacement of the five
characters `! ' ( ) *` with their percent-escapes. -/
def phpUrlEncode (s : Str) : Str :=
  replaceAllChar '*' (("%2A").toList)
    (replaceAllChar ')' (("%29").toList)
      (replaceAllChar '(' (("%28").toList)
        (replaceAllChar '\'' (("%27").toList)
          (replaceAllChar '!' (("%21").toList) (encodeURIComponent s)))))

/-- Boolean test that `s` begins with `pat`. -/
def leadsWith : Str → Str → Bool
  | [], _ => true
  | _ :: _, [] => false
  | p :: ps, c :: cs => p == c && leadsWith ps cs

/-- Scanner behind JS `String.prototype.indexOf` for a fixed pattern:
index (from `i`) of the first position where `pat` is a prefix. -/
def findSubAux : Str → Str → Nat → Option Nat
  | [], pat, i => if pat.length = 0 then some i else none
  | b :: bs, pat, i =>
      if leadsWith pat (b :: bs) then some i else findSubAux bs pat (i + 1)

/-- Model of `text.indexOf(pat)` (returning `none` for -1). -/
def findSub (s pat : Str) : Option Nat := findSubAux s pat 0

/-- The login token marker searched for in the ClientLogin body. -/
def authMarker : Str := ("Auth=").toList

/-- Model of the token-extraction step of `login` in
src/utils/rssHandler.js lines 113-122: find `Auth=`, take everything
after it to the end of the body, and trim; `none` when the marker is
absent. -/
def loginExtract (body : Str) : Option Str :=
  match findSub body authMarker with
  | some p => some (trimStr (body.drop (p + 5)))
  | none => none

/-- Upstream subscription record (`{id, title, iconUrl}`); `title` is
`Option` to model a missing (JS `undefined`) field. -/
structure Subscription where
  id : Str
  title : Option Str
  iconUrl : Str
deriving DecidableEq

/-- Upstream raw article as consumed by `formatArticles`: `summary` is
the optional `summary.content` string, `alternate` the list of `href`
values, `published` the publish epoch in seconds (assumed present and
non-negative, as delivered by the Google-Reader-compatible API). -/
structure RawArticle where
  title : Option Str
  summary : Option Str
  published : Nat
  alternate : List Str
deriving DecidableEq

/-- The externally visible formatted article record. -/
structure FormattedArticle where
  site_name : Str
  title : Str
  link : Str
  time : Str
  description : Str
  icon : Str
deriving DecidableEq

/-- JS `x || dflt` for an optional string (`undefined` and `''` are
falsy). -/
def jsOrStr (o : Option Str) (dflt : Str) : Str :=
  match o with
  | some s => if s = [] then dflt else s
  | none => dflt

/-- Site name of a subscription: `sub.title || '未知站点'`. -/
def siteNameOf (sub : Subscription) : Str := jsOrStr sub.title (("未知站点").toList)

/-- Last path segment: `s.split('/').pop()`. -/
def lastSegment (s : Str) : Str :=
  (s.reverse.takeWhile (fun c => c != '/')).reverse

/-- The summary text seen by the formatter:
`article.summary?.content || ''`. -/
def summaryOf (a : RawArticle) : Str :=
  match a.summary with
  | some s => s
  | none => []

/-- Cleaned summary of an article:
`stripTags(summary).replace(/\s+/g, ' ').trim()` applied to
`article.summary?.content || ''`. -/
def cleanSummary (a : RawArticle) : Str :=
  trimStr (collapseWs (stripTags (summaryOf a)))

/-- The ellipsis marker appended by the truncation branch. -/
def ellipsisStr : Str := ['.', '.', '.']

/-- Per-article body of `formatArticles` from src/utils/rssHandler.js
lines 201-220. -/
def formatArticle (sub : Subscription) (a : RawArticle) : FormattedArticle :=
  let clean := cleanSummary a
  { site_name := siteNameOf sub
    title := jsOrStr a.title (("无标题").toList)
    link := jsOrStr a.alternate.head? ['#']
    time := replaceFirstChar 'T' ' ' ((toISOStringUTC (a.published * 1000)).take 16)
    description := if 100 < clean.length then clean.take 99 ++ ellipsisStr else clean
    icon := ("https://rss.dao.js.cn/p/").toList ++ lastSegment sub.iconUrl }

/-- `formatArticles` from src/utils/rssHandler.js: map the per-article
formatter over the fetched articles. -/
def formatArticles (articles : List RawArticle) (sub : Subscription) : List FormattedArticle :=
  articles.map (formatArticle sub)

/-- Stable insertion step for the descending-by-published sort: an
element is placed before the first strictly older element, so elements
with equal publish epochs keep their original relative order — the
behavior of the (stable) JS `Array.prototype.sort` with comparator
`(b.published || 0) - (a.published || 0)`. -/
def insertByTime (a : RawArticle) : List RawArticle → List RawArticle
  | [] => [a]
  | b :: bs => if b.published ≤ a.published then a :: b :: bs else b :: insertByTime a bs

/-- Model of `sortArticlesByTime` from src/utils/rssHandler.js line 222:
stable sort by descending publish epoch. -/
def sortArticlesByTime (articles : List RawArticle) : List RawArticle :=
  articles.foldr insertByTime []

/-- The per-site digest: a JS object modelled as an association list in
key-insertion order (string keys; updates keep position, new keys are
appended). -/
abbrev Digest := List (Str × List FormattedArticle)

/-- Object property read `obj[k]`. -/
def digestGet : Digest → Str → Option (List FormattedArticle)
  | [], _ => none
  | kv :: rest, k => if kv.1 = k then some kv.2 else digestGet rest k

/-- Object property write `obj[k] = v` (update in place, or append a new
key). -/
def digestSet : Digest → Str → List FormattedArticle → Digest
  | [], k, v => [(k, v)]
  | kv :: rest, k, v => if kv.1 = k then (k, v) :: rest else kv :: digestSet rest k v

/-- Fuel-indexed body of `chunkArray`; fuel `arr.length` suffices for a
positive chunk size. -/
def chunkArrayF : Nat → List Subscription → Nat → List (List Subscription)
  | 0, _, _ => []
  | _ + 1, [], _ => []
  | fuel + 1, arr, size => arr.take size :: chunkArrayF fuel (arr.drop size) size

/-- Model of `chunkArray` from src/utils/rssHandler.js lines 226-232:
partition into contiguous groups of `size`. -/
def chunkArray (arr : List Subscription) (size : Nat) : List (List Subscription) :=
  chunkArrayF arr.length arr size

/-- Environment of one pipeline run: the outcomes of the three kinds of
outbound requests.  `loginResult` is what `login()` returns (`none` for
JS `null`); `subs` is what `getSubscriptions` returns (already `[]` on
failure, as in the source); `items` gives, per stream id, the `items`
field of the stream-contents response (`none` when the request failed
after retries or the field was absent — both yield `[]` in the source). -/
structure Env where
  loginResult : Option Str
  subs : List Subscription
  items : Str → Option (List RawArticle)

/-- Model of `fetchArticles` (post-network behavior): sort the items on
success, `[]` when the request failed or no `items` field came back. -/
def fetchArticlesModel (items : Str → Option (List RawArticle)) (sid : Str) : List RawArticle :=
  match items sid with
  | some its => sortArticlesByTime its
  | none => []

/-- One loop body of `getRssArticles` (src/utils/rssHandler.js lines
52-67): skip subscriptions with no articles, otherwise prepend the
freshly formatted articles to whatever is already stored under the site
name and keep the first 10. -/
def processSub (items : Str → Option (List RawArticle)) (acc : Digest) (sub : Subscription) :
    Digest :=
  if (fetchArticlesModel items sub.id).length = 0 then acc
  else
    digestSet acc (siteNameOf sub)
      ((formatArticles (fetchArticlesModel items sub.id) sub ++
        (digestGet acc (siteNameOf sub)).getD []).take 10)

/-- Process one batch sequentially. -/
def processBatch (items : Str → Option (List RawArticle)) (acc : Digest)
    (batch : List Subscription) : Digest :=
  batch.foldl (processSub items) acc

/-- The full batched digest construction of `getRssArticles` (batch size
10, batches processed in order; the inter-batch sleep has no observable
effect on the result). -/
def processSubs (items : Str → Option (List RawArticle)) (subs : List Subscription) : Digest :=
  (chunkArray subs 10).foldl (processBatch items) []

/-- The module-level cache of src/utils/rssHandler.js. -/
structure CacheState where
  data : Option Digest
  expireTime : Nat
deriving DecidableEq

/-- The `catch` branch of `getRssArticles`: return stale cache data when
present, otherwise propagate the error. -/
def staleOr (c : CacheState) (msg : Str) : Except Str Digest × CacheState :=
  match c.data with
  | some d => (Except.ok d, c)
  | none => (Except.error msg, c)

/-- The `try` block of `getRssArticles` (login, listing, batching,
cache commit), with the `catch` fallback applied to the two `throw`
sites. -/
def runPipeline (env : Env) (c : CacheState) (now : Nat) : Except Str Digest × CacheState :=
  match env.loginResult with
  | none => staleOr c (("登录失败：未获取到 Auth 令牌").toList)
  | some tok =>
      if tok = [] then staleOr c (("登录失败：未获取到 Auth 令牌").toList)
      else if env.subs.length = 0 then staleOr c (("未获取到订阅列表").toList)
      else
        let digest := processSubs env.items env.subs
        (Except.ok digest, { data := some digest, expireTime := now + 300 * 1000 })

/-- Model of `getRssArticles` from src/utils/rssHandler.js lines 29-85:
cache gate, then the pipeline with stale-cache fallback.  `now` is
`Date.now()` in milliseconds (held constant across the instantaneous
modelled run). -/
def getRssArticles (env : Env) (c : CacheState) (now : Nat) : Except Str Digest × CacheState :=
  match c.data with
  | some d => if now < c.expireTime then (Except.ok d, c) else runPipeline env c now
  | none => runPipeline env c now

/-- Digest carried by a run result (`[]` for the error case); used to
state concrete facts without equality on `Except`. -/
def digestOr (r : Except Str Digest) : Digest :=
  match r with
  | Except.ok d => d
  | Except.error _ => []

/-- Whether a run result is a success. -/
def exceptIsOk (r : Except Str Digest) : Bool :=
  match r with
  | Except.ok _ => true
  | Except.error _ => false

/-- Cache of the optimized variant (src/unnamed/part_000, second file):
adds the `lastUpdated` cooldown stamp. -/
structure CacheV2 where
  data : Option Digest
  expireTime : Nat
  lastUpdated : Nat
deriving DecidableEq

/-- JS object spread `{ ...old, ...new }` on digests: keys of `old` in
order with values overridden by `new` when present, then the keys of
`new` not in `old`, in their order. -/
def digestSpread (old new : Digest) : Digest :=
  old.map (fun kv => match digestGet new kv.1 with | some v => (kv.1, v) | none => kv) ++
    new.filter (fun kv => (digestGet old kv.1).isNone)

/-- Per-subscription body of the optimized variant: append the freshly
formatted articles after the stored ones and keep the first 10. -/
def processSubV2 (items : Str → Option (List RawArticle)) (acc : Digest) (sub : Subscription) :
    Digest :=
  if (fetchArticlesModel items sub.id).length = 0 then acc
  else
    digestSet acc (siteNameOf sub)
      (((digestGet acc (siteNameOf sub)).getD [] ++
        formatArticles (fetchArticlesModel items sub.id) sub).take 10)

/-- Digest construction of the optimized variant (batch size 3; the
within-batch `Promise.all` is modelled as in-order completion, the only
behavior its callbacks can observe in this pure embedding). -/
def processSubsV2 (items : Str → Option (List RawArticle)) (subs : List Subscription) : Digest :=
  (chunkArray subs 3).foldl (fun acc batch => batch.foldl (processSubV2 items) acc) []

/-- The `try` block of the optimized `getRssArticles` with its
merge-into-old-cache commit; the third component counts outbound
requests (one per endpoint call; retry multiplicity is abstracted). -/
def runPipelineV2 (env : Env) (c : CacheV2) (now : Nat) :
    Except Str Digest × CacheV2 × Nat :=
  match env.loginResult with
  | none => (match c.data with
      | some d => (Except.ok d, c, 1)
      | none => (Except.error (("登录失败：未获取到 Auth 令牌").toList), c, 1))
  | some tok =>
      if tok = [] then (match c.data with
        | some d => (Except.ok d, c, 1)
        | none => (Except.error (("登录失败：未获取到 Auth 令牌").toList), c, 1))
      else if env.subs.length = 0 then (match c.data with
        | some d => (Except.ok d, c, 2)
        | none => (Except.error (("未获取到订阅列表").toList), c, 2))
      else
        let digest := digestSpread (c.data.getD []) (processSubsV2 env.items env.subs)
        (Except.ok digest,
          { data := some digest, expireTime := now + 600 * 1000, lastUpdated := now },
          2 + env.subs.length)

/-- Model of the optimized `getRssArticles` (src/unnamed/part_000 lines
262-342): a 3-minute cooldown gate on `lastUpdated`, then the TTL gate,
then the pipeline.  Returns (result, cache, outbound request count). -/
def getRssArticlesOpt (env : Env) (c : CacheV2) (now : Nat) :
    Except Str Digest × CacheV2 × Nat :=
  match c.data with
  | some d =>
      if now - c.lastUpdated < 180000 then (Except.ok d, c, 0)
      else if now < c.expireTime then (Except.ok d, c, 0)
      else runPipelineV2 env c now
  | none => runPipelineV2 env c now

/-- Lexicographic strict order on strings (JS `<` on strings). -/
def strLtB : Str → Str → Bool
  | _, [] => false
  | [], _ :: _ => true
  | a :: as, b :: bs => decide (a.toNat < b.toNat) || (a.toNat == b.toNat && strLtB as bs)

/-- Lexicographic order on strings (JS `<=`). -/
def strLeB (a b : Str) : Bool := strLtB a b || a == b

/-- A formatted-article list is in non-increasing order of its rendered
`time` field. -/
def descByTime : List FormattedArticle → Bool
  | [] => true
  | [_] => true
  | x :: y :: rest => strLeB y.time x.time && descByTime (y :: rest)

/-- Every site list of the digest holds at most 10 articles. -/
def DigestLenOk (dg : Digest) : Prop := ∀ kv ∈ dg, kv.2.length ≤ 10

/-- Every site list of the digest holds at most 10 articles and is in
non-increasing order of rendered publish time. -/
def DigestOk (dg : Digest) : Prop :=
  ∀ kv ∈ dg, kv.2.length ≤ 10 ∧ descByTime kv.2 = true

/-- Concrete fixture subscription (title `A`, stream id `s1`). -/
def wSub : Subscription :=
  ⟨("s1").toList, some (("A").toList), ("http://x/i.png").toList⟩

/-- Concrete fixture subscription sharing the title of `wSub` (stream
id `s2`). -/
def wSub2 : Subscription :=
  ⟨("s2").toList, some (("A").toList), ("http://x/i.png").toList⟩

/-- Concrete fixture subscription with a distinct title `B` (stream id
`s3`). -/
def wSub3 : Subscription :=
  ⟨("s3").toList, some (("B").toList), ("icon.png").toList⟩

/-- Concrete fixture article with publish epoch `p`. -/
def wArt (p : Nat) : RawArticle :=
  ⟨some (("t").toList), none, p, [("http://a").toList]⟩

/-- Fixture item oracle: stream `s1` has one article at epoch 100,
stream `s2` one at epoch 50, everything else is missing. -/
def cexItems (sid : Str) : Option (List RawArticle) :=
  if sid = ("s1").toList then some [wArt 100]
  else if sid = ("s2").toList then some [wArt 50]
  else none

/-- Fixture environment with two same-title subscriptions. -/
def cexEnv : Env := ⟨some (("tok").toList), [wSub, wSub2], cexItems⟩

/-- Fixture item oracle for the single-subscription success run. -/
def okItems (sid : Str) : Option (List RawArticle) :=
  if sid = ("s3").toList then some [wArt 50] else none

/-- Fixture environment with one subscription. -/
def okEnv : Env := ⟨some (("tok").toList), [wSub3], okItems⟩

/-- Fixture environment whose login fails. -/
def failEnv : Env := ⟨none, [], fun _ => none⟩

/-- The digest the fixture success run produces. -/
def okDigest : Digest := [(("B").toList, [formatArticle wSub3 (wArt 50)])]

theorem stripTagsGo_not_mem_lt : ∀ (mode : Bool) (l : Str), '<' ∉ stripTagsGo mode l := by
  intro mode l
  induction l generalizing mode with
  | nil => cases mode <;> simp [stripTagsGo]
  | cons c cs ih =>
      cases mode with
      | true =>
          simp only [stripTagsGo]
          split <;> exact ih _
      | false =>
          simp only [stripTagsGo]
          split
          · exact ih _
          · intro hmem
            rcases List.mem_cons.mp hmem with h | h
            · exact absurd h.symm (by assumption)
            · exact ih false h

/-- stripTags output never contains an opening angle bracket. -/
theorem stripTags_not_mem_lt (l : Str) : '<' ∉ stripTags l :=
  stripTagsGo_not_mem_lt false l

theorem stripTagsGo_true_no_gt (t : Str) (h : '>' ∉ t) : stripTagsGo true t = [] := by
  induction t with
  | nil => rfl
  | cons c cs ih =>
      simp only [stripTagsGo]
      rw [if_neg (by intro hc; exact h (by simp [hc]))]
      exact ih (by intro hx; exact h (List.mem_cons_of_mem _ hx))

theorem stripTagsGo_unclosed (l t : Str) (h : '>' ∉ t) :
    ∀ mode, stripTagsGo mode (l ++ '<' :: t) = stripTagsGo mode l := by
  induction l with
  | nil =>
      intro mode
      cases mode with
      | true =>
          simp only [List.nil_append, stripTagsGo]
          rw [if_neg (by decide)]
          exact stripTagsGo_true_no_gt t h
      | false =>
          simp only [List.nil_append, stripTagsGo, if_pos]
          exact stripTagsGo_true_no_gt t h
  | cons c cs ih =>
      intro mode
      cases mode with
      | true =>
          simp only [List.cons_append, stripTagsGo]
          split <;> exact ih _
      | false =>
          simp only [List.cons_append, stripTagsGo]
          split
          · exact ih _
          · exact congrArg (fun x => c :: x) (ih false)

theorem stripTagsGo_true_closed (b c : Str) (hb : '>' ∉ b) :
    stripTagsGo true (b ++ '>' :: c) = stripTagsGo false c := by
  induction b with
  | nil => simp [stripTagsGo]
  | cons x xs ih =>
      simp only [List.cons_append, stripTagsGo]
      rw [if_neg (by intro hx; exact hb (by simp [hx]))]
      exact ih (by intro hx; exact hb (List.mem_cons_of_mem _ hx))

theorem stripTags_no_lt_id (l : Str) (h : '<' ∉ l) : stripTags l = l := by
  unfold stripTags
  induction l with
  | nil => rfl
  | cons c cs ih =>
      simp only [stripTagsGo]
      rw [if_neg (by intro hc; exact h (by simp [hc]))]
      rw [ih (by intro hx; exact h (List.mem_cons_of_mem _ hx))]

theorem stripTags_removes_tag (a b c : Str) (ha : '<' ∉ a) (hb : '>' ∉ b) :
    stripTags (a ++ '<' :: b ++ '>' :: c) = a ++ stripTags c := by
  unfold stripTags
  induction a with
  | nil =>
      simp only [List.nil_append, stripTagsGo, if_pos]
      exact stripTagsGo_true_closed b c hb
  | cons x xs ih =>
      simp only [List.cons_append, stripTagsGo]
      rw [if_neg (by intro hx; exact ha (by simp [hx]))]
      exact congrArg (fun l => x :: l) (ih (fun hx => ha (List.mem_cons_of_mem _ hx)))

/-- C10: `stripTags` removes each maximal substring starting at a `<`
and extending through the next `>` (or to the end of the input when no
`>` follows); hence its output never contains `<`, an unclosed `<`
deletes all remaining text, and a bare `>` with no preceding `<` is
preserved. -/
theorem c10_strip_tags :
    (∀ l : Str, '<' ∉ stripTags l) ∧
    (∀ l t : Str, '>' ∉ t → stripTags (l ++ '<' :: t) = stripTags l) ∧
    (∀ a b c : Str, '<' ∉ a → '>' ∉ b →
      stripTags (a ++ '<' :: b ++ '>' :: c) = a ++ stripTags c) ∧
    (∀ l : Str, '<' ∉ l → stripTags l = l) := by
  refine ⟨stripTags_not_mem_lt, ?_, stripTags_removes_tag, stripTags_no_lt_id⟩
  intro l t h
  exact stripTagsGo_unclosed l t h false

theorem c10_strip_tags_witness :
    stripTags ('a' :: '<' :: 'b' :: []) = 'a' :: [] ∧
    stripTags ('a' :: '>' :: 'b' :: []) = 'a' :: '>' :: 'b' :: [] := by
  constructor
  · exact (c10_strip_tags.2.1 ('a' :: []) ('b' :: []) (by decide)).trans (by decide)
  · exact c10_strip_tags.2.2.2 ('a' :: '>' :: 'b' :: []) (by decide)

theorem mem_collapseWs : ∀ (l : Str) (c : Char), c ∈ collapseWs l → c ∈ l ∨ c = ' ' := by
  intro l
  induction l with
  | nil => intro c h; simp [collapseWs] at h
  | cons x xs ih =>
      intro c h
      cases xs with
      | nil =>
          simp only [collapseWs] at h
          split at h
          · right; simpa using h
          · left; simpa using h
      | cons y ys =>
          simp only [collapseWs] at h
          split at h
          · split at h
            · rcases ih c h with h' | h'
              · exact Or.inl (List.mem_cons_of_mem _ h')
              · exact Or.inr h'
            · rcases List.mem_cons.mp h with h' | h'
              · exact Or.inr h'
              · rcases ih c h' with h'' | h''
                · exact Or.inl (List.mem_cons_of_mem _ h'')
                · exact Or.inr h''
          · rcases List.mem_cons.mp h with h' | h'
            · exact Or.inl (by simp [h'])
            · rcases ih c h' with h'' | h''
              · exact Or.inl (List.mem_cons_of_mem _ h'')
              · exact Or.inr h''

theorem mem_dropWhile {p : Char → Bool} : ∀ (l : Str) (c : Char), c ∈ l.dropWhile p → c ∈ l := by
  intro l
  induction l with
  | nil => intro c h; simp at h
  | cons x xs ih =>
      intro c h
      by_cases hp : p x
      · rw [List.dropWhile_cons_of_pos hp] at h
        exact List.mem_cons_of_mem _ (ih c h)
      · rw [List.dropWhile_cons_of_neg hp] at h
        exact h

theorem mem_trimStr (s : Str) (c : Char) (h : c ∈ trimStr s) : c ∈ s := by
  unfold trimStr at h
  rw [List.mem_reverse] at h
  have h1 := mem_dropWhile _ c h
  rw [List.mem_reverse] at h1
  exact mem_dropWhile _ c h1

theorem cleanSummary_no_lt (a : RawArticle) : '<' ∉ cleanSummary a := by
  intro h
  have h1 := mem_trimStr _ _ h
  rcases mem_collapseWs _ _ h1 with h2 | h2
  · exact stripTags_not_mem_lt _ h2
  · exact absurd h2 (by decide)

theorem description_shape (sub : Subscription) (a : RawArticle) :
    (formatArticle sub a).description.length ≤ 103 ∧ '<' ∉ (formatArticle sub a).description := by
  show (if 100 < (cleanSummary a).length then (cleanSummary a).take 99 ++ ellipsisStr
      else cleanSummary a).length ≤ 103 ∧
    '<' ∉ (if 100 < (cleanSummary a).length then (cleanSummary a).take 99 ++ ellipsisStr
      else cleanSummary a)
  split
  next h100 =>
    constructor
    · simp only [List.length_append, List.length_take, ellipsisStr, List.length_cons,
        List.length_nil]
      omega
    · intro hmem
      rcases List.mem_append.mp hmem with h | h
      · exact cleanSummary_no_lt a (List.mem_of_mem_take h)
      · simp [ellipsisStr] at h
  next h100 =>
    exact ⟨by omega, cleanSummary_no_lt a⟩

/-- C5: every formatted description is the markup-stripped,
whitespace-collapsed, trimmed summary, hard-truncated to its first 99
characters plus an ellipsis when the cleaned text exceeds 100
characters; hence it is at most 103 characters long and contains no
`<`; an empty summary yields an empty description. -/
theorem c5_description_bounds :
    (∀ (sub : Subscription) (arts : List RawArticle),
      ∀ f ∈ formatArticles arts sub, f.description.length ≤ 103 ∧ '<' ∉ f.description) ∧
    (∀ (sub : Subscription) (a : RawArticle),
      (summaryOf a = [] → (formatArticle sub a).description = []) ∧
      (100 < (cleanSummary a).length →
        (formatArticle sub a).description = (cleanSummary a).take 99 ++ ellipsisStr)) := by
  constructor
  · intro sub arts f hf
    rcases List.mem_map.mp hf with ⟨a, _, rfl⟩
    exact description_shape sub a
  · intro sub a
    constructor
    · intro h
      show (if 100 < (cleanSummary a).length then (cleanSummary a).take 99 ++ ellipsisStr
          else cleanSummary a) = []
      have hc : cleanSummary a = [] := by
        unfold cleanSummary
        rw [h]
        rfl
      rw [hc]
      simp
    · intro h
      show (if 100 < (cleanSummary a).length then (cleanSummary a).take 99 ++ ellipsisStr
          else cleanSummary a) = (cleanSummary a).take 99 ++ ellipsisStr
      rw [if_pos h]

theorem c5_description_bounds_witness :
    ((formatArticle wSub (wArt 100)).description.length ≤ 103 ∧
      '<' ∉ (formatArticle wSub (wArt 100)).description) ∧
    (formatArticle wSub (wArt 100)).description = [] := by
  refine ⟨c5_description_bounds.1 wSub [wArt 100] (formatArticle wSub (wArt 100)) ?_, ?_⟩
  · simp [formatArticles]
  · exact (c5_description_bounds.2 wSub (wArt 100)).1 (by decide)

/-- C6: the login URL encoding escapes `! ' ( ) *` on top of ordinary
percent-encoding, so `pass!word'(x)*` encodes to
`pass%21word%27%28x%29%2A`. -/
theorem c6_php_url_encode :
    phpUrlEncode (("pass!word'(x)*").toList) = ("pass%21word%27%28x%29%2A").toList := by
  decide

theorem leadsWith_append (pat rest : Str) : leadsWith pat (pat ++ rest) = true := by
  induction pat with
  | nil => rfl
  | cons p ps ih => simp [leadsWith, ih]

theorem findSubAux_none (pat : Str) (hp : pat ≠ []) :
    ∀ (bs : Str) (i : Nat), (∀ j, leadsWith pat (bs.drop j) = false) →
      findSubAux bs pat i = none := by
  intro bs
  induction bs with
  | nil =>
      intro i h
      simp only [findSubAux]
      rw [if_neg]
      simpa using hp
  | cons b bs ih =>
      intro i h
      simp only [findSubAux]
      rw [if_neg (by rw [show (b :: bs : Str) = (b :: bs).drop 0 from rfl, h 0]; simp)]
      exact ih (i + 1) (fun j => h (j + 1))

theorem findSubAux_found :
    ∀ (pre rest pat : Str) (i : Nat), pat ≠ [] →
      (∀ j, j < pre.length → leadsWith pat ((pre ++ pat ++ rest).drop j) = false) →
      findSubAux (pre ++ pat ++ rest) pat i = some (i + pre.length) := by
  intro pre
  induction pre with
  | nil =>
      intro rest pat i hp _
      cases pat with
      | nil => exact absurd rfl hp
      | cons p ps =>
          simp only [List.nil_append, List.cons_append, findSubAux]
          rw [if_pos]
          · simp
          · exact leadsWith_append (p :: ps) rest
  | cons x xs ih =>
      intro rest pat i hp h
      simp only [List.cons_append, findSubAux, List.append_eq]
      rw [if_neg (by
        have h0 := h 0 (by simp)
        rw [List.drop_zero] at h0
        simp only [List.cons_append, List.append_eq] at h0
        rw [h0]
        simp)]
      have hih := ih rest pat (i + 1) hp (fun j hj => by
        have hjs := h (j + 1) (by simpa using Nat.succ_lt_succ hj)
        simpa using hjs)
      simp only [List.append_eq] at hih
      rw [hih]
      congr 1
      simp only [List.length_cons]
      omega

/-- C2 counterexample: the claim says the token stops at the first line
break, but the code takes everything to the end of the body; on the body
`Auth=tok\nX` the extracted token is `tok\nX`, not `tok`. -/
theorem c2_counterexample :
    loginExtract (("Auth=tok\nX").toList) = some (("tok\nX").toList) ∧
    ("tok\nX").toList ≠ ("tok").toList := by
  constructor
  · decide
  · decide

/-- C2 as amended: `login` extracts the substring after the first
occurrence of the marker `Auth=` taken to the END of the body (not to
the first line break), trimmed of surrounding whitespace, and yields a
failure value (`none`, JS `null`) when the marker is absent. -/
theorem c2_amended_login_extract :
    (∀ body : Str, (∀ j, leadsWith authMarker (body.drop j) = false) →
      loginExtract body = none) ∧
    (∀ pre rest : Str,
      (∀ j, j < pre.length → leadsWith authMarker ((pre ++ authMarker ++ rest).drop j) = false) →
      loginExtract (pre ++ authMarker ++ rest) = some (trimStr rest)) := by
  constructor
  · intro body h
    unfold loginExtract findSub
    rw [findSubAux_none authMarker (by decide) body 0 h]
  · intro pre rest h
    unfold loginExtract findSub
    rw [findSubAux_found pre rest authMarker 0 (by decide) h]
    simp only [Nat.zero_add]
    congr 1
    have hlen : (pre ++ authMarker).length = pre.length + 5 := by
      simp [authMarker]
    have : pre ++ authMarker ++ rest = (pre ++ authMarker) ++ rest := by
      simp
    rw [this, show pre.length + 5 = (pre ++ authMarker).length from hlen.symm,
      List.drop_left]

theorem c2_amended_login_extract_witness :
    loginExtract ((("x").toList) ++ authMarker ++ ((" tok ").toList)) =
      some (("tok").toList) := by
  refine (c2_amended_login_extract.2 (("x").toList) ((" tok ").toList) ?_).trans (by decide)
  decide

theorem staleOr_some (c : CacheState) (msg : Str) (d : Digest) (hd : c.data = some d) :
    staleOr c msg = (Except.ok d, c) := by
  unfold staleOr
  rw [hd]

theorem staleOr_none (c : CacheState) (msg : Str) (hd : c.data = none) :
    staleOr c msg = (Except.error msg, c) := by
  unfold staleOr
  rw [hd]

theorem getRssArticles_warm (env : Env) (c : CacheState) (now : Nat) (d : Digest)
    (hd : c.data = some d) :
    getRssArticles env c now =
      if now < c.expireTime then (Except.ok d, c) else runPipeline env c now := by
  unfold getRssArticles
  rw [hd]

theorem getRssArticles_cold (env : Env) (c : CacheState) (now : Nat) (hd : c.data = none) :
    getRssArticles env c now = runPipeline env c now := by
  unfold getRssArticles
  rw [hd]

theorem runPipeline_eq (env : Env) (c : CacheState) (now : Nat) (tok : Str)
    (h : env.loginResult = some tok) :
    runPipeline env c now =
      if tok = [] then staleOr c (("登录失败：未获取到 Auth 令牌").toList)
      else if env.subs.length = 0 then staleOr c (("未获取到订阅列表").toList)
      else (Except.ok (processSubs env.items env.subs),
        { data := some (processSubs env.items env.subs), expireTime := now + 300 * 1000 }) := by
  unfold runPipeline
  rw [h]

theorem runPipeline_fail (env : Env) (c : CacheState) (now : Nat)
    (h : env.loginResult = none ∨ env.loginResult = some [] ∨ env.subs = []) :
    runPipeline env c now = staleOr c (("登录失败：未获取到 Auth 令牌").toList) ∨
    runPipeline env c now = staleOr c (("未获取到订阅列表").toList) := by
  rcases h with h | h | h
  · left
    unfold runPipeline
    rw [h]
  · left
    rw [runPipeline_eq env c now [] h, if_pos rfl]
  · cases henv : env.loginResult with
    | none =>
        left
        unfold runPipeline
        rw [henv]
    | some tok =>
        by_cases htok : tok = []
        · left
          rw [runPipeline_eq env c now tok henv, if_pos htok]
        · right
          rw [runPipeline_eq env c now tok henv, if_neg htok, h]
          rfl

/-- C3: when login yields no usable token or the subscription listing is
empty, the run returns the previously cached digest unchanged when one
exists, else a terminal error distinguishable from a successful empty
digest; the cached state is untouched either way. -/
theorem c3_failure_preserves_cache :
    ∀ (env : Env) (c : CacheState) (now : Nat),
      (env.loginResult = none ∨ env.loginResult = some [] ∨ env.subs = []) →
      (∀ d, c.data = some d → getRssArticles env c now = (Except.ok d, c)) ∧
      (c.data = none → ∃ msg, getRssArticles env c now = (Except.error msg, c)) := by
  intro env c now h
  constructor
  · intro d hd
    rw [getRssArticles_warm env c now d hd]
    by_cases hlt : now < c.expireTime
    · rw [if_pos hlt]
    · rw [if_neg hlt]
      rcases runPipeline_fail env c now h with hr | hr <;>
        rw [hr, staleOr_some c _ d hd]
  · intro hd
    rw [getRssArticles_cold env c now hd]
    rcases runPipeline_fail env c now h with hr | hr <;>
      exact ⟨_, by rw [hr, staleOr_none c _ hd]⟩

theorem c3_failure_preserves_cache_witness :
    getRssArticles failEnv ⟨some okDigest, 999⟩ 5000 = (Except.ok okDigest, ⟨some okDigest, 999⟩) ∧
    ∃ msg, getRssArticles failEnv ⟨none, 0⟩ 5000 = (Except.error msg, ⟨none, 0⟩) :=
  ⟨(c3_failure_preserves_cache failEnv ⟨some okDigest, 999⟩ 5000 (Or.inl rfl)).1 okDigest rfl,
   (c3_failure_preserves_cache failEnv ⟨none, 0⟩ 5000 (Or.inl rfl)).2 rfl⟩

/-- C4: in the optimized variant, a request within the 3-minute cooldown
window of the last successful run returns the cached digest with zero
outbound requests, regardless of the TTL check (whose window, 600 s, is
strictly longer than the 180 s cooldown). -/
theorem c4_cooldown_gate :
    ∀ (env : Env) (c : CacheV2) (now : Nat) (d : Digest),
      c.data = some d → now - c.lastUpdated < 180000 →
      getRssArticlesOpt env c now = (Except.ok d, c, 0) ∧ 180000 < 600 * 1000 := by
  intro env c now d hd hcool
  refine ⟨?_, by norm_num⟩
  have hgate : getRssArticlesOpt env c now =
      if now - c.lastUpdated < 180000 then (Except.ok d, c, 0)
      else if now < c.expireTime then (Except.ok d, c, 0) else runPipelineV2 env c now := by
    unfold getRssArticlesOpt
    rw [hd]
  rw [hgate, if_pos hcool]

theorem c4_cooldown_gate_witness :
    getRssArticlesOpt cexEnv ⟨some okDigest, 400000, 500000⟩ 600000 =
      (Except.ok okDigest, ⟨some okDigest, 400000, 500000⟩, 0) :=
  (c4_cooldown_gate cexEnv ⟨some okDigest, 400000, 500000⟩ 600000 okDigest rfl
    (by decide)).1

theorem length_insertByTime (a : RawArticle) :
    ∀ l : List RawArticle, (insertByTime a l).length = l.length + 1 := by
  intro l
  induction l with
  | nil => rfl
  | cons b bs ih =>
      unfold insertByTime
      split
      · rfl
      · simp only [List.length_cons, ih]

theorem length_sortArticlesByTime (l : List RawArticle) :
    (sortArticlesByTime l).length = l.length := by
  unfold sortArticlesByTime
  induction l with
  | nil => rfl
  | cons a l ih => simp only [List.foldr_cons, length_insertByTime, ih, List.length_cons]

theorem digestGet_digestSet (acc : Digest) (k : Str) (v : List FormattedArticle) (k' : Str) :
    digestGet (digestSet acc k v) k' = if k = k' then some v else digestGet acc k' := by
  induction acc with
  | nil =>
      simp only [digestSet, digestGet]
  | cons kv rest ih =>
      simp only [digestSet]
      by_cases h1 : kv.1 = k
      · rw [if_pos h1]
        simp only [digestGet]
        by_cases h2 : k = k'
        · rw [if_pos h2, if_pos h2]
        · rw [if_neg h2, if_neg h2, if_neg (fun he => h2 (h1.symm.trans he))]
      · rw [if_neg h1]
        simp only [digestGet, ih]
        by_cases h2 : kv.1 = k'
        · rw [if_pos h2, if_neg (fun he => h1 (h2.trans he.symm)), if_pos h2]
        · rw [if_neg h2, if_neg h2]

theorem fetchArticlesModel_some (items : Str → Option (List RawArticle)) (sid : Str)
    (its : List RawArticle) (h : items sid = some its) :
    fetchArticlesModel items sid = sortArticlesByTime its := by
  unfold fetchArticlesModel
  rw [h]

theorem fetchArticlesModel_none (items : Str → Option (List RawArticle)) (sid : Str)
    (h : items sid = none) :
    fetchArticlesModel items sid = [] := by
  unfold fetchArticlesModel
  rw [h]

theorem processSub_skip (items : Str → Option (List RawArticle)) (acc : Digest)
    (sub : Subscription) (h : items sub.id = none) :
    processSub items acc sub = acc := by
  unfold processSub
  rw [fetchArticlesModel_none items sub.id h]
  rfl

theorem processSub_hit (items : Str → Option (List RawArticle)) (acc : Digest)
    (sub : Subscription) (its : List RawArticle) (h : items sub.id = some its)
    (hne : its ≠ []) :
    processSub items acc sub =
      digestSet acc (siteNameOf sub)
        ((formatArticles (sortArticlesByTime its) sub ++
          (digestGet acc (siteNameOf sub)).getD []).take 10) := by
  unfold processSub
  rw [fetchArticlesModel_some items sub.id its h]
  rw [if_neg (by rw [length_sortArticlesByTime]; simpa using hne)]

theorem processSubs_pair (items : Str → Option (List RawArticle)) (s1 s2 : Subscription) :
    processSubs items [s1, s2] = processSub items (processSub items [] s1) s2 := rfl

theorem processSubs_three (items : Str → Option (List RawArticle)) (s1 s2 s3 : Subscription) :
    processSubs items [s1, s2, s3] =
      processSub items (processSub items (processSub items [] s1) s2) s3 := rfl

/-- C7: a per-subscription fetch failure yields nothing for that
subscription only: with three subscriptions where the second one's fetch
fails after retries, the run still succeeds and the digest contains
entries for the first and third subscriptions. -/
theorem c7_partial_failure_isolated :
    ∀ (items : Str → Option (List RawArticle)) (s1 s2 s3 : Subscription) (tok : Str)
      (its1 its3 : List RawArticle) (now : Nat),
      tok ≠ [] →
      items s1.id = some its1 → its1 ≠ [] →
      items s2.id = none →
      items s3.id = some its3 → its3 ≠ [] →
      ∃ d st,
        getRssArticles ⟨some tok, [s1, s2, s3], items⟩ ⟨none, 0⟩ now = (Except.ok d, st) ∧
        (digestGet d (siteNameOf s1)).isSome = true ∧
        (digestGet d (siteNameOf s3)).isSome = true := by
  intro items s1 s2 s3 tok its1 its3 now htok h1 hne1 h2 h3 hne3
  rw [getRssArticles_cold _ _ _ rfl,
    runPipeline_eq ⟨some tok, [s1, s2, s3], items⟩ ⟨none, 0⟩ now tok rfl,
    if_neg htok, if_neg (by simp)]
  refine ⟨_, _, rfl, ?_, ?_⟩ <;>
    rw [show (⟨some tok, [s1, s2, s3], items⟩ : Env).items = items from rfl,
      show (⟨some tok, [s1, s2, s3], items⟩ : Env).subs = [s1, s2, s3] from rfl,
      processSubs_three, processSub_skip items _ s2 h2,
      processSub_hit items _ s3 its3 h3 hne3, digestGet_digestSet]
  · by_cases hk : siteNameOf s3 = siteNameOf s1
    · rw [if_pos hk]
      rfl
    · rw [if_neg hk, processSub_hit items [] s1 its1 h1 hne1, digestGet_digestSet,
        if_pos rfl]
      rfl
  · rw [if_pos rfl]
    rfl

theorem c7_partial_failure_isolated_witness :
    ∃ d st,
      getRssArticles ⟨some (("tok").toList), [wSub, wSub3, wSub2], cexItems⟩ ⟨none, 0⟩ 0 =
        (Except.ok d, st) ∧
      (digestGet d (siteNameOf wSub)).isSome = true ∧
      (digestGet d (siteNameOf wSub2)).isSome = true :=
  c7_partial_failure_isolated cexItems wSub wSub3 wSub2 (("tok").toList)
    [wArt 100] [wArt 50] 0 (by decide) (by decide) (by decide) (by decide) (by decide)
    (by decide)

/-- C9: two subscriptions with the same (possibly placeholder) site name
merge under one digest key: the later subscription's formatted articles
are placed before the earlier ones without re-sorting, the combined list
is capped at 10, and no second digest entry is created. -/
theorem c9_shared_title_merge :
    ∀ (items : Str → Option (List RawArticle)) (s1 s2 : Subscription)
      (its1 its2 : List RawArticle),
      siteNameOf s1 = siteNameOf s2 →
      items s1.id = some its1 → its1 ≠ [] →
      items s2.id = some its2 → its2 ≠ [] →
      processSubs items [s1, s2] =
        [(siteNameOf s1,
          (formatArticles (sortArticlesByTime its2) s2 ++
            (formatArticles (sortArticlesByTime its1) s1).take 10).take 10)] := by
  intro items s1 s2 its1 its2 hsame h1 hne1 h2 hne2
  rw [processSubs_pair, processSub_hit items [] s1 its1 h1 hne1]
  have e1 : digestSet [] (siteNameOf s1)
      ((formatArticles (sortArticlesByTime its1) s1 ++
        (digestGet [] (siteNameOf s1)).getD []).take 10) =
      [(siteNameOf s1, (formatArticles (sortArticlesByTime its1) s1).take 10)] := by
    simp [digestSet, digestGet]
  rw [e1, processSub_hit items _ s2 its2 h2 hne2, ← hsame]
  simp [digestGet, digestSet]

theorem c9_shared_title_merge_witness :
    processSubs cexItems [wSub, wSub2] =
      [(siteNameOf wSub,
        (formatArticles (sortArticlesByTime [wArt 50]) wSub2 ++
          (formatArticles (sortArticlesByTime [wArt 100]) wSub).take 10).take 10)] :=
  c9_shared_title_merge cexItems wSub wSub2 [wArt 100] [wArt 50] (by decide) (by decide)
    (by decide) (by decide) (by decide)

theorem daysInYear_ge (y : Nat) : 365 ≤ daysInYear y := by
  unfold daysInYear
  split <;> omega

theorem digitChar_toNat (n : Nat) : (digitChar n).toNat = 48 + n % 10 := by
  have h : n % 10 < 10 := Nat.mod_lt _ (by omega)
  unfold digitChar
  revert h
  generalize n % 10 = k
  intro h
  interval_cases k <;> decide

theorem digitChar_ne_T (n : Nat) : digitChar n ≠ 'T' := by
  intro h
  have h2 := congrArg Char.toNat h
  rw [digitChar_toNat] at h2
  have h84 : ('T').toNat = 84 := rfl
  rw [h84] at h2
  have : n % 10 < 10 := Nat.mod_lt _ (by omega)
  omega

theorem mem_pad4 (n : Nat) (c : Char) (h : c ∈ pad4 n) : ∃ m, c = digitChar m := by
  unfold pad4 at h
  simp only [List.mem_cons, List.not_mem_nil, or_false] at h
  rcases h with h | h | h | h <;> exact ⟨_, h⟩

theorem mem_pad2 (n : Nat) (c : Char) (h : c ∈ pad2 n) : ∃ m, c = digitChar m := by
  unfold pad2 at h
  simp only [List.mem_cons, List.not_mem_nil, or_false] at h
  rcases h with h | h <;> exact ⟨_, h⟩

theorem not_mem_T_isoDatePart (s : Nat) : 'T' ∉ isoDatePart s := by
  intro h
  unfold isoDatePart at h
  rcases List.mem_append.mp h with h | h
  · rcases List.mem_append.mp h with h | h
    · obtain ⟨m, hm⟩ := mem_pad4 _ _ h
      exact digitChar_ne_T m hm.symm
    · rcases List.mem_cons.mp h with h | h
      · exact absurd h (by decide)
      · obtain ⟨m, hm⟩ := mem_pad2 _ _ h
        exact digitChar_ne_T m hm.symm
  · rcases List.mem_cons.mp h with h | h
    · exact absurd h (by decide)
    · obtain ⟨m, hm⟩ := mem_pad2 _ _ h
      exact digitChar_ne_T m hm.symm

theorem isoDatePart_length (s : Nat) : (isoDatePart s).length = 10 := by
  unfold isoDatePart pad4 pad2
  simp

theorem replaceFirstChar_not_mem (c r : Char) :
    ∀ (l t : Str), c ∉ l → replaceFirstChar c r (l ++ c :: t) = l ++ r :: t := by
  intro l
  induction l with
  | nil =>
      intro t _
      simp [replaceFirstChar]
  | cons x xs ih =>
      intro t h
      simp only [List.cons_append, replaceFirstChar]
      rw [if_neg (fun he => h (by simp [he]))]
      exact congrArg (fun l => x :: l) (ih t (fun hx => h (List.mem_cons_of_mem _ hx)))

theorem take_len16_append (A B : Str) (h : A.length = 16) : (A ++ B).take 16 = A := by
  rw [← h]
  exact List.take_left A B

theorem timeField_eq (p : Nat) :
    replaceFirstChar 'T' ' ' ((toISOStringUTC (p * 1000)).take 16) = specTimeRender p := by
  have hdiv : p * 1000 / 1000 = p := Nat.mul_div_cancel p (by norm_num)
  unfold toISOStringUTC specTimeRender
  rw [hdiv]
  have hsplit : isoDatePart p ++
      'T' :: pad2 (p % 86400 / 3600) ++ ':' :: pad2 (p % 3600 / 60) ++
      ':' :: pad2 (p % 60) ++ '.' :: pad3 (p * 1000 % 1000) ++ ['Z'] =
      (isoDatePart p ++ 'T' :: pad2 (p % 86400 / 3600) ++ ':' :: pad2 (p % 3600 / 60)) ++
      (':' :: pad2 (p % 60) ++ '.' :: pad3 (p * 1000 % 1000) ++ ['Z']) := by
    simp [List.append_assoc]
  rw [hsplit, take_len16_append _ _ (by
    simp only [List.length_append, isoDatePart_length, List.length_cons, pad2]
    rfl)]
  have hA2 : isoDatePart p ++ 'T' :: pad2 (p % 86400 / 3600) ++ ':' :: pad2 (p % 3600 / 60) =
      isoDatePart p ++ 'T' :: (pad2 (p % 86400 / 3600) ++ ':' :: pad2 (p % 3600 / 60)) := by
    simp [List.append_assoc]
  rw [hA2, replaceFirstChar_not_mem 'T' ' ' _ _ (not_mem_T_isoDatePart p)]
  simp [List.append_assoc]

theorem sumYears_shift (y : Nat) : ∀ k, sumYears y (k + 1) = daysInYear y + sumYears (y + 1) k := by
  intro k
  induction k with
  | zero => simp [sumYears]
  | succ k ih =>
      show sumYears y (k + 1) + daysInYear (y + (k + 1)) =
        daysInYear y + (sumYears (y + 1) k + daysInYear (y + 1 + k))
      rw [ih, show y + (k + 1) = y + 1 + k by omega]
      omega

theorem findYear_spec : ∀ (fuel y d : Nat), d ≤ 365 * fuel →
    ∃ k doy, findYear fuel y d = (y + k, doy) ∧ sumYears y k + doy = d ∧
      doy < daysInYear (y + k) := by
  intro fuel
  induction fuel with
  | zero =>
      intro y d hd
      have hd0 : d = 0 := by omega
      subst hd0
      exact ⟨0, 0, rfl, rfl, by have := daysInYear_ge (y + 0); omega⟩
  | succ fuel ih =>
      intro y d hd
      by_cases h : d < daysInYear y
      · refine ⟨0, d, ?_, by simp [sumYears], by simpa using h⟩
        unfold findYear
        rw [if_pos h]
        rfl
      · push_neg at h
        have h365 := daysInYear_ge y
        obtain ⟨k, doy, heq, hsum, hlt⟩ := ih (y + 1) (d - daysInYear y) (by omega)
        refine ⟨k + 1, doy, ?_, ?_, ?_⟩
        · rw [show y + (k + 1) = y + 1 + k by omega]
          unfold findYear
          rw [if_neg (by omega)]
          exact heq
        · rw [sumYears_shift y k]
          omega
        · rw [show y + (k + 1) = y + 1 + k by omega]
          exact hlt

theorem findMonth_spec : ∀ (ls : List Nat) (m d : Nat), d < ls.sum →
    ∃ j dd, findMonth ls m d = (m + j, dd) ∧ j < ls.length ∧ 1 ≤ dd ∧
      dd ≤ ls.getD j 0 ∧ (ls.take j).sum + (dd - 1) = d := by
  intro ls
  induction ls with
  | nil =>
      intro m d hd
      simp at hd
  | cons ml rest ih =>
      intro m d hd
      by_cases h : d < ml
      · refine ⟨0, d + 1, ?_, by simp, by omega, by simpa using h, by simp⟩
        unfold findMonth
        rw [if_pos h]
        rfl
      · push_neg at h
        have hsum : (ml :: rest).sum = ml + rest.sum := by simp
        obtain ⟨j, dd, heq, hj, hdd1, hddle, hsum2⟩ := ih (m + 1) (d - ml) (by omega)
        refine ⟨j + 1, dd, ?_, by simpa using Nat.succ_lt_succ hj, hdd1, ?_, ?_⟩
        · rw [show m + (j + 1) = m + 1 + j by omega]
          unfold findMonth
          rw [if_neg (by omega)]
          exact heq
        · simpa using hddle
        · rw [List.take_succ_cons, List.sum_cons]
          omega

theorem monthLengths_sum (y : Nat) : (monthLengths y).sum = daysInYear y := by
  unfold monthLengths daysInYear
  cases h : isLeap y <;> decide

theorem monthLengths_length (y : Nat) : (monthLengths y).length = 12 := rfl

theorem civil_spec (z : Nat) :
    ∃ y m d, civilOfDays z = (y, m, d) ∧ 1970 ≤ y ∧ 1 ≤ m ∧ m ≤ 12 ∧ 1 ≤ d ∧
      d ≤ (monthLengths y).getD (m - 1) 0 ∧ dayNumber y m d = z := by
  obtain ⟨k, doy, hy, hsum, hlt⟩ := findYear_spec (z + 1) 1970 z (by omega)
  have hmsum : doy < (monthLengths (1970 + k)).sum := by
    rw [monthLengths_sum]
    exact hlt
  obtain ⟨j, dd, hm, hj, hdd1, hddle, hsum2⟩ :=
    findMonth_spec (monthLengths (1970 + k)) 1 doy hmsum
  have hj12 : j < 12 := by
    rw [monthLengths_length] at hj
    exact hj
  refine ⟨1970 + k, 1 + j, dd, ?_, by omega, by omega, by omega, hdd1, ?_, ?_⟩
  · unfold civilOfDays
    rw [hy]
    dsimp only
    rw [hm]
  · simpa using hddle
  · unfold dayNumber
    rw [show 1970 + k - 1970 = k by omega, show 1 + j - 1 = j by omega]
    omega

theorem isLeap_iff (y : Nat) : isLeap y = true ↔ (y % 4 = 0 ∧ ¬ y % 100 = 0) ∨ y % 400 = 0 := by
  unfold isLeap
  simp [Bool.or_eq_true, Bool.and_eq_true, beq_iff_eq, bne_iff_ne]

theorem daysInYear_cases (y : Nat) :
    (daysInYear y = 366 ∧ (y % 4 = 0 ∧ y % 100 ≠ 0 ∨ y % 400 = 0)) ∨
    (daysInYear y = 365 ∧ ¬(y % 4 = 0 ∧ y % 100 ≠ 0) ∧ y % 400 ≠ 0) := by
  by_cases hl : isLeap y = true
  · left
    refine ⟨by unfold daysInYear; rw [if_pos hl], ?_⟩
    exact (isLeap_iff y).mp hl
  · right
    have hnl : ¬ ((y % 4 = 0 ∧ ¬ y % 100 = 0) ∨ y % 400 = 0) :=
      fun hc => hl ((isLeap_iff y).mpr hc)
    exact ⟨by unfold daysInYear; rw [if_neg hl],
      fun hc => hnl (Or.inl hc), fun hc => hnl (Or.inr hc)⟩

theorem sumYears_closed : ∀ k : Nat,
    sumYears 1970 k + 477 + (1969 + k) / 100 = 365 * k + (1969 + k) / 4 + (1969 + k) / 400 := by
  intro k
  induction k with
  | zero => decide
  | succ k ih =>
      have hstep : sumYears 1970 (k + 1) = sumYears 1970 k + daysInYear (1970 + k) := rfl
      rw [hstep]
      rcases daysInYear_cases (1970 + k) with ⟨he, hor⟩ | ⟨he, hn1, hn2⟩
      · rw [he]
        revert ih
        generalize sumYears 1970 k = S
        intro ih
        rcases hor with ⟨h4, h100⟩ | h400 <;> omega
      · rw [he]
        revert ih
        generalize sumYears 1970 k = S
        intro ih
        by_cases h4 : (1970 + k) % 4 = 0
        · have h100 : (1970 + k) % 100 = 0 := by
            by_contra hc
            exact hn1 ⟨h4, hc⟩
          omega
        · omega

theorem sumYears_le (y : Nat) (a b : Nat) (hab : a ≤ b) : sumYears y a ≤ sumYears y b := by
  obtain ⟨t, rfl⟩ : ∃ t, b = a + t := ⟨b - a, by omega⟩
  clear hab
  induction t with
  | zero => exact le_rfl
  | succ t ih =>
      have hstep : sumYears y (a + t + 1) = sumYears y (a + t) + daysInYear (y + (a + t)) := rfl
      rw [show a + (t + 1) = a + t + 1 by omega, hstep]
      omega

theorem sumYears_8030 : sumYears 1970 8030 = 2932897 := by
  have h := sumYears_closed 8030
  revert h
  generalize sumYears 1970 8030 = S
  intro h
  omega

/-- C8: the `time` field of every formatted article is the publish epoch
(seconds) converted to the absolute UTC civil date and time, truncated
to minute precision and rendered as `YYYY-MM-DD HH:MM` (16 characters);
the civil conversion is correct in that the independent day-count
formula maps the date back to the epoch's day number, with all
components in range.  The hypothesis keeps the epoch below the year
10000, where the real `toISOString` switches to the expanded-year
format. -/
theorem c8_time_format :
    ∀ (sub : Subscription) (a : RawArticle), a.published < 253402300800 →
      (formatArticle sub a).time = specTimeRender a.published ∧
      (specTimeRender a.published).length = 16 ∧
      ∃ y m d, civilOfDays (a.published / 86400) = (y, m, d) ∧
        dayNumber y m d = a.published / 86400 ∧
        1970 ≤ y ∧ y ≤ 9999 ∧ 1 ≤ m ∧ m ≤ 12 ∧ 1 ≤ d ∧
        d ≤ (monthLengths y).getD (m - 1) 0 ∧
        a.published % 86400 / 3600 < 24 ∧ a.published % 3600 / 60 < 60 := by
  intro sub a hp
  refine ⟨timeField_eq a.published, ?_, ?_⟩
  · unfold specTimeRender pad2
    simp [isoDatePart_length]
  · obtain ⟨y, m, d, hc, h1970, hm1, hm12, hd1, hdle, hday⟩ := civil_spec (a.published / 86400)
    refine ⟨y, m, d, hc, hday, h1970, ?_, hm1, hm12, hd1, hdle, by omega, by omega⟩
    by_contra hy
    push_neg at hy
    have hz : a.published / 86400 < 2932897 := by omega
    have hge : sumYears 1970 8030 ≤ sumYears 1970 (y - 1970) :=
      sumYears_le 1970 8030 (y - 1970) (by omega)
    have hle : sumYears 1970 (y - 1970) ≤ a.published / 86400 := by
      unfold dayNumber at hday
      omega
    rw [sumYears_8030] at hge
    omega

theorem c8_time_format_witness :
    (formatArticle wSub (wArt 1234567890)).time = ("2009-02-13 23:31").toList := by
  have h := (c8_time_format wSub (wArt 1234567890) (by decide)).1
  exact h.trans (by decide)

/-- C1 counterexample: run the pipeline over two subscriptions sharing
the title `A`, the first with an article at epoch 100, the second with
an article at epoch 50; the merge prepends the later subscription's
(older) article without re-sorting, so the produced digest's `A` list is
not in descending publish-time order. -/
theorem c1_counterexample :
    exceptIsOk (getRssArticles cexEnv ⟨none, 0⟩ 0).1 = true ∧
    ¬ DigestOk (digestOr (getRssArticles cexEnv ⟨none, 0⟩ 0).1) := by
  constructor
  · decide
  · intro h
    have h2 := h (("A").toList, [formatArticle wSub2 (wArt 50), formatArticle wSub (wArt 100)])
      (by decide)
    exact absurd h2.2 (by decide)

theorem mem_digestSet (acc : Digest) (k : Str) (v : List FormattedArticle) :
    ∀ kv ∈ digestSet acc k v, kv = (k, v) ∨ kv ∈ acc := by
  induction acc with
  | nil =>
      intro kv h
      simp only [digestSet] at h
      exact Or.inl (by simpa using h)
  | cons kv0 rest ih =>
      intro kv h
      unfold digestSet at h
      split at h
      · rcases List.mem_cons.mp h with h | h
        · exact Or.inl h
        · exact Or.inr (List.mem_cons_of_mem _ h)
      · rcases List.mem_cons.mp h with h | h
        · exact Or.inr (by simp [h])
        · rcases ih kv h with h' | h'
          · exact Or.inl h'
          · exact Or.inr (List.mem_cons_of_mem _ h')

theorem processSub_len (items : Str → Option (List RawArticle)) (acc : Digest)
    (sub : Subscription) (ha : ∀ kv ∈ acc, kv.2.length ≤ 10) :
    ∀ kv ∈ processSub items acc sub, kv.2.length ≤ 10 := by
  intro kv h
  unfold processSub at h
  split at h
  · exact ha kv h
  · rcases mem_digestSet _ _ _ kv h with h' | h'
    · subst h'
      exact List.length_take_le 10 _
    · exact ha kv h'

theorem foldl_processSub_len (items : Str → Option (List RawArticle)) :
    ∀ (subs : List Subscription) (acc : Digest),
      (∀ kv ∈ acc, kv.2.length ≤ 10) →
      ∀ kv ∈ subs.foldl (processSub items) acc, kv.2.length ≤ 10 := by
  intro subs
  induction subs with
  | nil =>
      intro acc ha kv h
      exact ha kv h
  | cons s rest ih =>
      intro acc ha kv h
      exact ih _ (processSub_len items acc s ha) kv h

theorem chunkArrayF_foldl (f : Digest → Subscription → Digest) :
    ∀ (fuel : Nat) (l : List Subscription) (size : Nat) (acc : Digest),
      l.length ≤ fuel → 0 < size →
      (chunkArrayF fuel l size).foldl (fun a batch => batch.foldl f a) acc = l.foldl f acc := by
  intro fuel
  induction fuel with
  | zero =>
      intro l size acc hl _
      cases l with
      | nil => rfl
      | cons x xs => simp at hl
  | succ fuel ih =>
      intro l size acc hl hs
      cases l with
      | nil => rfl
      | cons x xs =>
          show (((x :: xs).take size :: chunkArrayF fuel ((x :: xs).drop size) size).foldl
            (fun a batch => batch.foldl f a) acc) = (x :: xs).foldl f acc
          rw [List.foldl_cons]
          rw [ih ((x :: xs).drop size) size _ (by simp only [List.length_drop]; omega) hs]
          rw [← List.foldl_append, List.take_append_drop]

theorem processSubs_eq_foldl (items : Str → Option (List RawArticle))
    (subs : List Subscription) :
    processSubs items subs = subs.foldl (processSub items) [] := by
  unfold processSubs chunkArray processBatch
  exact chunkArrayF_foldl (processSub items) subs.length subs 10 [] le_rfl (by norm_num)

theorem mem_insertByTime (a : RawArticle) :
    ∀ (l : List RawArticle) (x : RawArticle), x ∈ insertByTime a l → x = a ∨ x ∈ l := by
  intro l
  induction l with
  | nil =>
      intro x h
      exact Or.inl (by simpa [insertByTime] using h)
  | cons b bs ih =>
      intro x h
      unfold insertByTime at h
      split at h
      · rcases List.mem_cons.mp h with h | h
        · exact Or.inl h
        · exact Or.inr h
      · rcases List.mem_cons.mp h with h | h
        · exact Or.inr (by simp [h])
        · rcases ih x h with h' | h'
          · exact Or.inl h'
          · exact Or.inr (List.mem_cons_of_mem _ h')

theorem pairwise_insertByTime (a : RawArticle) :
    ∀ l : List RawArticle, l.Pairwise (fun x y => y.published ≤ x.published) →
      (insertByTime a l).Pairwise (fun x y => y.published ≤ x.published) := by
  intro l
  induction l with
  | nil =>
      intro _
      simp [insertByTime]
  | cons b bs ih =>
      intro hp
      rw [List.pairwise_cons] at hp
      obtain ⟨hb, hbs⟩ := hp
      unfold insertByTime
      split
      next hle =>
        rw [List.pairwise_cons]
        refine ⟨?_, ?_⟩
        · intro x hx
          rcases List.mem_cons.mp hx with rfl | hx
          · exact hle
          · exact le_trans (hb x hx) hle
        · rw [List.pairwise_cons]
          exact ⟨hb, hbs⟩
      next hgt =>
        push_neg at hgt
        rw [List.pairwise_cons]
        refine ⟨?_, ih hbs⟩
        intro x hx
        rcases mem_insertByTime a bs x hx with rfl | hx
        · omega
        · exact hb x hx

theorem sorted_sortArticlesByTime (l : List RawArticle) :
    (sortArticlesByTime l).Pairwise (fun x y => y.published ≤ x.published) := by
  unfold sortArticlesByTime
  induction l with
  | nil => simp
  | cons a l ih => exact pairwise_insertByTime a _ ih

theorem mem_sortArticlesByTime (l : List RawArticle) (x : RawArticle)
    (h : x ∈ sortArticlesByTime l) : x ∈ l := by
  unfold sortArticlesByTime at h
  induction l with
  | nil => simp at h
  | cons a rest ih =>
      rcases mem_insertByTime a _ x h with h' | h'
      · simp [h']
      · exact List.mem_cons_of_mem _ (ih h')

theorem strLtB_cons (x y : Char) (c d : Str) :
    strLtB (x :: c) (y :: d) =
      (decide (x.toNat < y.toNat) || (x.toNat == y.toNat && strLtB c d)) := rfl

theorem strLtB_nil : strLtB [] [] = false := rfl

theorem strLeB_refl (a : Str) : strLeB a a = true := by
  unfold strLeB
  simp

theorem beq_append_same : ∀ (a c d : Str), ((a ++ c) == (a ++ d)) = (c == d) := by
  intro a
  induction a with
  | nil => intro c d; rfl
  | cons x xs ih =>
      intro c d
      simp only [List.cons_append, List.cons_beq_cons, ih]
      simp

theorem strLtB_append_same : ∀ (a c d : Str), strLtB (a ++ c) (a ++ d) = strLtB c d := by
  intro a
  induction a with
  | nil => intro c d; rfl
  | cons x xs ih =>
      intro c d
      simp only [List.cons_append]
      rw [strLtB_cons, ih]
      simp [Nat.lt_irrefl]

theorem strLeB_append_same (a c d : Str) : strLeB (a ++ c) (a ++ d) = strLeB c d := by
  unfold strLeB
  rw [strLtB_append_same, beq_append_same]

theorem strLeB_cons_same (x : Char) (c d : Str) : strLeB (x :: c) (x :: d) = strLeB c d := by
  have h := strLeB_append_same [x] c d
  simpa using h

theorem strLtB_append_left : ∀ (a b c d : Str), a.length = b.length → strLtB a b = true →
    strLtB (a ++ c) (b ++ d) = true := by
  intro a
  induction a with
  | nil =>
      intro b c d hl hlt
      cases b with
      | nil => simp [strLtB_nil] at hlt
      | cons y ys => simp at hl
  | cons x xs ih =>
      intro b c d hl hlt
      cases b with
      | nil => simp at hl
      | cons y ys =>
          simp only [List.cons_append]
          rw [strLtB_cons] at hlt ⊢
          rw [Bool.or_eq_true] at hlt ⊢
          rcases hlt with h | h
          · exact Or.inl h
          · right
            rw [Bool.and_eq_true] at h ⊢
            exact ⟨h.1, ih ys c d (by simpa using hl) h.2⟩

theorem pad2_lt_mod (a b : Nat) (h : a % 100 < b % 100) :
    strLtB (pad2 a) (pad2 b) = true := by
  unfold pad2
  rw [strLtB_cons, strLtB_cons]
  simp only [digitChar_toNat, strLtB_nil, Bool.and_false, Bool.or_false, Bool.or_eq_true,
    decide_eq_true_eq, Bool.and_eq_true, beq_iff_eq]
  omega

theorem pad2_lt (a b : Nat) (ha : a < 100) (hb : b < 100) (h : a < b) :
    strLtB (pad2 a) (pad2 b) = true :=
  pad2_lt_mod a b (by omega)

theorem pad4_eq_pad2_pad2 (n : Nat) : pad4 n = pad2 (n / 100) ++ pad2 n := by
  unfold pad4 pad2
  rw [show n / 100 / 10 = n / 1000 from by rw [Nat.div_div_eq_div_mul]]
  rfl

theorem pad4_lt (a b : Nat) (ha : a < 10000) (hb : b < 10000) (h : a < b) :
    strLtB (pad4 a) (pad4 b) = true := by
  rw [pad4_eq_pad2_pad2, pad4_eq_pad2_pad2]
  rcases Nat.lt_or_ge (a / 100) (b / 100) with hc | hc
  · exact strLtB_append_left _ _ _ _ rfl (pad2_lt_mod _ _ (by omega))
  · have hce : a / 100 = b / 100 := by omega
    rw [hce, strLtB_append_same]
    exact pad2_lt_mod a b (by omega)

theorem take_sum_getD (l : List Nat) : ∀ j : Nat, j < l.length →
    (l.take (j + 1)).sum = (l.take j).sum + l.getD j 0 := by
  induction l with
  | nil =>
      intro j hj
      simp at hj
  | cons x xs ih =>
      intro j hj
      cases j with
      | zero => simp [List.getD]
      | succ j =>
          rw [List.take_succ_cons, List.take_succ_cons, List.sum_cons, List.sum_cons,
            ih j (by simpa using Nat.lt_of_succ_lt_succ hj)]
          simp [List.getD_cons_succ]
          omega

theorem take_sum_le (l : List Nat) (k : Nat) : (l.take k).sum ≤ l.sum := by
  have h : l.sum = (l.take k).sum + (l.drop k).sum := by
    rw [← List.sum_append, List.take_append_drop]
  omega

theorem take_sum_mono (l : List Nat) : ∀ a b : Nat, a ≤ b → (l.take a).sum ≤ (l.take b).sum := by
  induction l with
  | nil =>
      intro a b _
      simp
  | cons x xs ih =>
      intro a b hab
      cases a with
      | zero => simp
      | succ a =>
          cases b with
          | zero => omega
          | succ b =>
              rw [List.take_succ_cons, List.take_succ_cons, List.sum_cons, List.sum_cons]
              have := ih a b (by omega)
              omega

theorem monthLengths_getD_le (y j : Nat) : (monthLengths y).getD j 0 ≤ 31 := by
  by_cases hj : j < 12
  · unfold monthLengths
    cases h : isLeap y <;> interval_cases j <;> decide
  · rw [List.getD_eq_default]
    · omega
    · rw [monthLengths_length]
      omega

theorem civil_bounds (z : Nat) :
    1970 ≤ (civilOfDays z).1 ∧ 1 ≤ (civilOfDays z).2.1 ∧ (civilOfDays z).2.1 ≤ 12 ∧
    1 ≤ (civilOfDays z).2.2 ∧ (civilOfDays z).2.2 ≤ 31 := by
  obtain ⟨y, m, d, hc, h70, hm1, hm12, hd1, hdle, _⟩ := civil_spec z
  rw [hc]
  exact ⟨h70, hm1, hm12, hd1, le_trans hdle (monthLengths_getD_le y (m - 1))⟩

theorem civil_year_le (z : Nat) (hz : z < 2932897) : (civilOfDays z).1 ≤ 9999 := by
  obtain ⟨y, m, d, hc, h70, hm1, hm12, hd1, hdle, hday⟩ := civil_spec z
  rw [hc]
  by_contra hy
  push_neg at hy
  have hge := sumYears_le 1970 8030 (y - 1970) (by omega)
  rw [sumYears_8030] at hge
  unfold dayNumber at hday
  omega

theorem doy_lt (y m d : Nat) (hm1 : 1 ≤ m) (hm12 : m ≤ 12) (hd1 : 1 ≤ d)
    (hdle : d ≤ (monthLengths y).getD (m - 1) 0) :
    ((monthLengths y).take (m - 1)).sum + (d - 1) < daysInYear y := by
  rw [← monthLengths_sum y]
  have hstep := take_sum_getD (monthLengths y) (m - 1) (by rw [monthLengths_length]; omega)
  have hle := take_sum_le (monthLengths y) (m - 1 + 1)
  omega

theorem civil_lex (z1 z2 : Nat) (h : z1 < z2) :
    (civilOfDays z1).1 < (civilOfDays z2).1 ∨
    ((civilOfDays z1).1 = (civilOfDays z2).1 ∧
      ((civilOfDays z1).2.1 < (civilOfDays z2).2.1 ∨
       ((civilOfDays z1).2.1 = (civilOfDays z2).2.1 ∧
         (civilOfDays z1).2.2 < (civilOfDays z2).2.2))) := by
  obtain ⟨y1, m1, d1, hc1, hy1, hm1a, hm1b, hd1a, hd1b, hday1⟩ := civil_spec z1
  obtain ⟨y2, m2, d2, hc2, hy2, hm2a, hm2b, hd2a, hd2b, hday2⟩ := civil_spec z2
  rw [hc1, hc2]
  dsimp only
  unfold dayNumber at hday1 hday2
  rcases Nat.lt_trichotomy y1 y2 with hy | hy | hy
  · exact Or.inl hy
  · right
    refine ⟨hy, ?_⟩
    subst hy
    have hdoy1 := doy_lt y1 m1 d1 hm1a hm1b hd1a hd1b
    have hdoy2 := doy_lt y1 m2 d2 hm2a hm2b hd2a hd2b
    have hdoylt : ((monthLengths y1).take (m1 - 1)).sum + (d1 - 1) <
        ((monthLengths y1).take (m2 - 1)).sum + (d2 - 1) := by
      omega
    rcases Nat.lt_trichotomy m1 m2 with hm | hm | hm
    · exact Or.inl hm
    · right
      refine ⟨hm, ?_⟩
      subst hm
      omega
    · exfalso
      have hstep := take_sum_getD (monthLengths y1) (m2 - 1) (by rw [monthLengths_length]; omega)
      have hmono := take_sum_mono (monthLengths y1) (m2 - 1 + 1) (m1 - 1) (by omega)
      omega
  · exfalso
    have hle1 := sumYears_le 1970 (y2 - 1970 + 1) (y1 - 1970) (by omega)
    have hstep : sumYears 1970 (y2 - 1970 + 1) =
        sumYears 1970 (y2 - 1970) + daysInYear (1970 + (y2 - 1970)) := rfl
    rw [show 1970 + (y2 - 1970) = y2 from by omega] at hstep
    have hdoy2 := doy_lt y2 m2 d2 hm2a hm2b hd2a hd2b
    omega

set_option maxHeartbeats 1600000 in
theorem isoDatePart_lt (p q : Nat) (hp : p / 86400 < 2932897) (hq : q / 86400 < 2932897)
    (hlt : p / 86400 < q / 86400) : strLtB (isoDatePart p) (isoDatePart q) = true := by
  obtain ⟨y1, m1, d1, hc1, h70a, hm1a, hm1b, hd1a, hd1b, hdayA⟩ := civil_spec (p / 86400)
  obtain ⟨y2, m2, d2, hc2, h70b, hm2a, hm2b, hd2a, hd2b, hdayB⟩ := civil_spec (q / 86400)
  have hy1 : y1 ≤ 9999 := by
    have h := civil_year_le (p / 86400) hp
    rw [hc1] at h
    exact h
  have hy2 : y2 ≤ 9999 := by
    have h := civil_year_le (q / 86400) hq
    rw [hc2] at h
    exact h
  have hd1c : d1 ≤ 31 := le_trans hd1b (monthLengths_getD_le y1 (m1 - 1))
  have hd2c : d2 ≤ 31 := le_trans hd2b (monthLengths_getD_le y2 (m2 - 1))
  have hlex := civil_lex (p / 86400) (q / 86400) hlt
  rw [hc1, hc2] at hlex
  dsimp only at hlex
  unfold isoDatePart
  rw [hc1, hc2]
  dsimp only
  clear hc1 hc2 hp hq hlt hdayA hdayB hd1b hd2b
  have hshape : ∀ (Y M D : Nat),
      pad4 Y ++ '-' :: pad2 M ++ '-' :: pad2 D =
      pad4 Y ++ ('-' :: (pad2 M ++ '-' :: pad2 D)) := by
    intro Y M D
    simp
  rw [hshape y1 m1 d1, hshape y2 m2 d2]
  rcases hlex with hy | ⟨hyeq, hm | ⟨hmeq, hd⟩⟩
  · exact strLtB_append_left (pad4 y1) (pad4 y2) _ _ rfl (pad4_lt y1 y2 (by omega) (by omega) hy)
  · subst hyeq
    rw [strLtB_append_same, strLtB_cons]
    simp only [Nat.lt_irrefl, decide_False, Bool.false_or, beq_self_eq_true, Bool.true_and]
    exact strLtB_append_left (pad2 m1) (pad2 m2) _ _ rfl
      (pad2_lt m1 m2 (by omega) (by omega) hm)
  · subst hyeq
    subst hmeq
    rw [strLtB_append_same, strLtB_cons]
    simp only [Nat.lt_irrefl, decide_False, Bool.false_or, beq_self_eq_true, Bool.true_and]
    rw [strLtB_append_same]
    exact pad2_lt d1 d2 (by omega) (by omega) hd

set_option maxHeartbeats 1600000 in
theorem specTimeRender_mono (p q : Nat) (hp : p < 253402300800) (hq : q < 253402300800)
    (h : p ≤ q) : strLeB (specTimeRender p) (specTimeRender q) = true := by
  rcases Nat.eq_or_lt_of_le h with rfl | hlt
  · exact strLeB_refl _
  · by_cases hz : p / 86400 = q / 86400
    · have hdate : isoDatePart p = isoDatePart q := by
        unfold isoDatePart
        rw [hz]
      unfold specTimeRender
      rw [hdate]
      have hshape : ∀ (t : Nat) (A : Str),
          A ++ ' ' :: pad2 (t % 86400 / 3600) ++ ':' :: pad2 (t % 3600 / 60) =
          A ++ (' ' :: (pad2 (t % 86400 / 3600) ++ ':' :: pad2 (t % 3600 / 60))) := by
        intro t A
        simp
      rw [hshape p, hshape q, strLeB_append_same, strLeB_cons_same]
      by_cases hh : p % 86400 / 3600 = q % 86400 / 3600
      · rw [hh, strLeB_append_same, strLeB_cons_same]
        by_cases hmi : p % 3600 / 60 = q % 3600 / 60
        · rw [hmi]
          exact strLeB_refl _
        · have hlt2 : p % 3600 / 60 < q % 3600 / 60 := by omega
          unfold strLeB
          rw [pad2_lt (p % 3600 / 60) (q % 3600 / 60) (by omega) (by omega) hlt2]
          simp
      · have hlt2 : p % 86400 / 3600 < q % 86400 / 3600 := by omega
        unfold strLeB
        rw [strLtB_append_left (pad2 (p % 86400 / 3600)) (pad2 (q % 86400 / 3600)) _ _ rfl
          (pad2_lt _ _ (by omega) (by omega) hlt2)]
        simp
    · have hzlt : p / 86400 < q / 86400 := by omega
      unfold specTimeRender strLeB
      rw [List.append_assoc, List.append_assoc]
      rw [strLtB_append_left (isoDatePart p) (isoDatePart q) _ _
        (by rw [isoDatePart_length, isoDatePart_length])
        (isoDatePart_lt p q (by omega) (by omega) hzlt)]
      simp

theorem descByTime_cons (x y : FormattedArticle) (rest : List FormattedArticle) :
    descByTime (x :: y :: rest) = (strLeB y.time x.time && descByTime (y :: rest)) := rfl

theorem formatArticle_time (sub : Subscription) (a : RawArticle) :
    (formatArticle sub a).time = specTimeRender a.published := timeField_eq a.published

theorem descByTime_map (sub : Subscription) :
    ∀ l : List RawArticle,
      (∀ a ∈ l, a.published < 253402300800) →
      l.Pairwise (fun x y => y.published ≤ x.published) →
      descByTime (formatArticles l sub) = true := by
  intro l
  induction l with
  | nil =>
      intro _ _
      rfl
  | cons a rest ih =>
      intro hb hp
      rw [List.pairwise_cons] at hp
      obtain ⟨ha, hrest⟩ := hp
      cases rest with
      | nil => rfl
      | cons b rest2 =>
          show descByTime (formatArticle sub a :: formatArticle sub b ::
            formatArticles rest2 sub) = true
          rw [descByTime_cons, Bool.and_eq_true]
          constructor
          · rw [formatArticle_time, formatArticle_time]
            exact specTimeRender_mono b.published a.published (hb b (by simp))
              (hb a (by simp)) (ha b (by simp))
          · exact ih (fun x hx => hb x (List.mem_cons_of_mem _ hx)) hrest

theorem descByTime_take : ∀ (l : List FormattedArticle) (n : Nat),
    descByTime l = true → descByTime (l.take n) = true := by
  intro l
  induction l with
  | nil =>
      intro n _
      rw [List.take_nil]
      rfl
  | cons x xs ih =>
      intro n h
      cases n with
      | zero => rfl
      | succ n =>
          rw [List.take_succ_cons]
          cases xs with
          | nil =>
              rw [List.take_nil]
              rfl
          | cons y ys =>
              cases n with
              | zero => rfl
              | succ n =>
                  rw [List.take_succ_cons]
                  rw [descByTime_cons] at h
                  rw [Bool.and_eq_true] at h
                  have h2 := ih (n + 1) h.2
                  rw [List.take_succ_cons] at h2
                  show (strLeB y.time x.time && descByTime (y :: ys.take n)) = true
                  rw [Bool.and_eq_true]
                  exact ⟨h.1, h2⟩

theorem digestSet_fresh (acc : Digest) (k : Str) (v : List FormattedArticle)
    (h : digestGet acc k = none) : digestSet acc k v = acc ++ [(k, v)] := by
  induction acc with
  | nil => rfl
  | cons kv rest ih =>
      unfold digestGet at h
      by_cases h1 : kv.1 = k
      · rw [if_pos h1] at h
        exact absurd h (by simp)
      · rw [if_neg h1] at h
        unfold digestSet
        rw [if_neg h1, ih h]
        rfl

theorem digestGet_append (acc₁ acc₂ : Digest) (k : Str) :
    digestGet (acc₁ ++ acc₂) k =
      match digestGet acc₁ k with
      | some v => some v
      | none => digestGet acc₂ k := by
  induction acc₁ with
  | nil => rfl
  | cons kv rest ih =>
      simp only [List.cons_append]
      by_cases h1 : kv.1 = k
      · show (if kv.1 = k then some kv.2 else digestGet (rest ++ acc₂) k) = _
        rw [if_pos h1]
        show _ = (match (if kv.1 = k then some kv.2 else digestGet rest k) with
          | some v => some v
          | none => digestGet acc₂ k)
        rw [if_pos h1]
      · show (if kv.1 = k then some kv.2 else digestGet (rest ++ acc₂) k) = _
        rw [if_neg h1]
        show _ = (match (if kv.1 = k then some kv.2 else digestGet rest k) with
          | some v => some v
          | none => digestGet acc₂ k)
        rw [if_neg h1]
        exact ih

theorem foldl_distinct (items : Str → Option (List RawArticle)) :
    ∀ (subs : List Subscription) (acc : Digest),
      subs.Pairwise (fun s t => siteNameOf s ≠ siteNameOf t) →
      (∀ s ∈ subs, digestGet acc (siteNameOf s) = none) →
      ∀ kv ∈ subs.foldl (processSub items) acc,
        kv ∈ acc ∨ ∃ s ∈ subs,
          kv = (siteNameOf s, (formatArticles (fetchArticlesModel items s.id) s).take 10) := by
  intro subs
  induction subs with
  | nil =>
      intro acc _ _ kv h
      exact Or.inl h
  | cons s rest ih =>
      intro acc hpw hfresh kv h
      rw [List.pairwise_cons] at hpw
      obtain ⟨hs, hrest⟩ := hpw
      rw [List.foldl_cons] at h
      by_cases hemp : (fetchArticlesModel items s.id).length = 0
      · rw [show processSub items acc s = acc from by unfold processSub; rw [if_pos hemp]] at h
        rcases ih acc hrest (fun t ht => hfresh t (List.mem_cons_of_mem _ ht)) kv h with
          h' | ⟨t, ht, he⟩
        · exact Or.inl h'
        · exact Or.inr ⟨t, List.mem_cons_of_mem _ ht, he⟩
      · have hfs : digestGet acc (siteNameOf s) = none := hfresh s (by simp)
        have hps : processSub items acc s =
            acc ++ [(siteNameOf s, (formatArticles (fetchArticlesModel items s.id) s).take 10)] := by
          unfold processSub
          rw [if_neg hemp, hfs, digestSet_fresh _ _ _ hfs]
          simp
        rw [hps] at h
        have hfresh' : ∀ t ∈ rest,
            digestGet (acc ++ [(siteNameOf s,
              (formatArticles (fetchArticlesModel items s.id) s).take 10)])
              (siteNameOf t) = none := by
          intro t ht
          rw [digestGet_append, hfresh t (List.mem_cons_of_mem _ ht)]
          show digestGet [(siteNameOf s,
            (formatArticles (fetchArticlesModel items s.id) s).take 10)] (siteNameOf t) = none
          unfold digestGet
          rw [if_neg (hs t ht)]
          rfl
        rcases ih _ hrest hfresh' kv h with h' | ⟨t, ht, he⟩
        · rcases List.mem_append.mp h' with h'' | h''
          · exact Or.inl h''
          · right
            refine ⟨s, by simp, ?_⟩
            simpa using h''
        · exact Or.inr ⟨t, List.mem_cons_of_mem _ ht, he⟩

theorem staleOr_shape (c : CacheState) (msg : Str) (d : Digest) (st : CacheState)
    (hrun : staleOr c msg = (Except.ok d, st)) :
    ∃ d0, c.data = some d0 ∧ d = d0 := by
  cases hc : c.data with
  | some d0 =>
      rw [staleOr_some c msg d0 hc] at hrun
      injection hrun with h1 h2
      injection h1 with h3
      exact ⟨d0, rfl, h3.symm⟩
  | none =>
      rw [staleOr_none c msg hc] at hrun
      injection hrun with h1 _
      exact Except.noConfusion h1

theorem runPipeline_shape (env : Env) (c : CacheState) (now : Nat) (d : Digest)
    (st : CacheState) (hrun : runPipeline env c now = (Except.ok d, st)) :
    ((∀ d0, c.data = some d0 → DigestLenOk d0) → DigestLenOk d) ∧
    ((∀ d0, c.data = some d0 → DigestOk d0) →
      env.subs.Pairwise (fun s t => siteNameOf s ≠ siteNameOf t) →
      (∀ s ∈ env.subs, ∀ a ∈ fetchArticlesModel env.items s.id,
        a.published < 253402300800) →
      DigestOk d) := by
  cases hl : env.loginResult with
  | none =>
      rw [show runPipeline env c now = staleOr c (("登录失败：未获取到 Auth 令牌").toList) from
        by unfold runPipeline; rw [hl]] at hrun
      obtain ⟨d0, hc0, rfl⟩ := staleOr_shape c _ d st hrun
      exact ⟨fun hlen => hlen d hc0, fun hok _ _ => hok d hc0⟩
  | some tok =>
      rw [runPipeline_eq env c now tok hl] at hrun
      by_cases htok : tok = []
      · rw [if_pos htok] at hrun
        obtain ⟨d0, hc0, rfl⟩ := staleOr_shape c _ d st hrun
        exact ⟨fun hlen => hlen d hc0, fun hok _ _ => hok d hc0⟩
      · rw [if_neg htok] at hrun
        by_cases hsubs : env.subs.length = 0
        · rw [if_pos hsubs] at hrun
          obtain ⟨d0, hc0, rfl⟩ := staleOr_shape c _ d st hrun
          exact ⟨fun hlen => hlen d hc0, fun hok _ _ => hok d hc0⟩
        · rw [if_neg hsubs] at hrun
          have hd : d = processSubs env.items env.subs := by
            injection hrun with h1 _
            injection h1 with h2
            exact h2.symm
          subst hd
          constructor
          · intro _
            intro kv hkv
            rw [processSubs_eq_foldl] at hkv
            exact foldl_processSub_len env.items env.subs []
              (by intro kv h; simp at h) kv hkv
          · intro _ hpw hbound
            intro kv hkv
            rw [processSubs_eq_foldl] at hkv
            rcases foldl_distinct env.items env.subs [] hpw (fun s _ => rfl) kv hkv with
              h' | ⟨s, hsmem, he⟩
            · simp at h'
            · subst he
              constructor
              · exact List.length_take_le 10 _
              · show descByTime ((formatArticles (fetchArticlesModel env.items s.id) s).take 10) =
                  true
                apply descByTime_take
                apply descByTime_map
                · intro a ha
                  exact hbound s hsmem a ha
                · unfold fetchArticlesModel
                  cases hi : env.items s.id with
                  | none => simp
                  | some its => exact sorted_sortArticlesByTime its

/-- C1 as amended: every digest a run returns has at most 10 articles
per site (given the cache held only such digests); and, provided the
run's subscriptions have pairwise distinct site names and all fetched
publish epochs predate the year 10000, every site list is in descending
rendered publish-time order.  Without the distinct-site-name premise the
order clause fails (see the counterexample): a site key shared by two
subscriptions gets the later subscription's articles prepended without
re-sorting. -/
theorem c1_amended_digest_shape :
    ∀ (env : Env) (c : CacheState) (now : Nat) (d : Digest) (st : CacheState),
      getRssArticles env c now = (Except.ok d, st) →
      ((∀ d0, c.data = some d0 → DigestLenOk d0) → DigestLenOk d) ∧
      ((∀ d0, c.data = some d0 → DigestOk d0) →
        env.subs.Pairwise (fun s t => siteNameOf s ≠ siteNameOf t) →
        (∀ s ∈ env.subs, ∀ a ∈ fetchArticlesModel env.items s.id,
          a.published < 253402300800) →
        DigestOk d) := by
  intro env c now d st hrun
  have hpath : runPipeline env c now = (Except.ok d, st) ∨
      ∃ d0, c.data = some d0 ∧ d = d0 := by
    cases hc : c.data with
    | some d0 =>
        rw [getRssArticles_warm env c now d0 hc] at hrun
        by_cases hlt : now < c.expireTime
        · rw [if_pos hlt] at hrun
          injection hrun with h1 _
          injection h1 with h2
          exact Or.inr ⟨d0, rfl, h2.symm⟩
        · rw [if_neg hlt] at hrun
          exact Or.inl hrun
    | none =>
        rw [getRssArticles_cold env c now hc] at hrun
        exact Or.inl hrun
  rcases hpath with hp | ⟨d0, hc0, rfl⟩
  · exact runPipeline_shape env c now d st hp
  · exact ⟨fun hlen => hlen d hc0, fun hok _ _ => hok d hc0⟩

theorem c1_amended_digest_shape_witness :
    ([formatArticle wSub3 (wArt 50)] : List FormattedArticle).length ≤ 10 ∧
    descByTime [formatArticle wSub3 (wArt 50)] = true := by
  have heq : getRssArticles okEnv ⟨none, 0⟩ 0 =
      (Except.ok okDigest, ⟨some okDigest, 300000⟩) := by
    rw [getRssArticles_cold okEnv ⟨none, 0⟩ 0 rfl,
      runPipeline_eq okEnv ⟨none, 0⟩ 0 (("tok").toList) rfl,
      if_neg (by decide), if_neg (by decide)]
    have hps : processSubs okEnv.items okEnv.subs = okDigest := by decide
    rw [hps]
  have h := (c1_amended_digest_shape okEnv ⟨none, 0⟩ 0 okDigest ⟨some okDigest, 300000⟩ heq).2
    (fun d0 h0 => Option.noConfusion h0)
    (by simp [okEnv])
    (by decide)
  exact h (("B").toList, [formatArticle wSub3 (wArt 50)]) (by decide)
